import Mathlib

/-!
Verification of the agent-orchestrator core against its specification.

The definitions below are shallow embeddings of the TypeScript sources:
pure functions become Lean functions, stateful services become explicit
state-passing functions, and the file system becomes a map from paths to
contents.  JavaScript strings are modelled as Lean `String`/`List Char`
(all inputs of interest are ASCII; `jsToLower` models
`String.prototype.toLowerCase` on the ASCII range, which is the range the
regex character classes `\w`, `\s`, `[a-z0-9-]` in the sources inspect).
-/

namespace Orchestra

/-! ### Character classes used by the source regexes -/

/-- JavaScript `toLowerCase` restricted to ASCII: maps `A`-`Z` to `a`-`z`,
leaves every other character unchanged. -/
def jsToLower (c : Char) : Char :=
  if 65 ≤ c.toNat ∧ c.toNat ≤ 90 then Char.ofNat (c.toNat + 32) else c

/-- The regex class `\w` = `[A-Za-z0-9_]`. -/
def isWordChar (c : Char) : Bool :=
  (65 ≤ c.toNat && c.toNat ≤ 90) || (97 ≤ c.toNat && c.toNat ≤ 122) ||
  (48 ≤ c.toNat && c.toNat ≤ 57) || c = '_'

/-- The regex class `\s` (ASCII part): space, tab, line feed, carriage
return, vertical tab, form feed. -/
def isJsSpace (c : Char) : Bool :=
  c = ' ' || c = '\t' || c = '\n' || c = '\r' || c = '\x0b' || c = '\x0c'

def isAsciiDigit (c : Char) : Bool := 48 ≤ c.toNat && c.toNat ≤ 57

def isLowerAlpha (c : Char) : Bool := 97 ≤ c.toNat && c.toNat ≤ 122

/-- Character allowed in a branch slug by the spec regex `[a-z0-9-]`. -/
def isSlugChar (c : Char) : Bool := isLowerAlpha c || isAsciiDigit c || c = '-'

/-! ### `slugify` (src/server/utils/slugify.ts)

lowercase; remove characters outside word chars, whitespace and hyphens;
replace whitespace/underscore runs by a single hyphen; collapse hyphen
runs; trim hyphens at both ends; truncate to 50 characters (the
truncation comes LAST, after the trim). -/

/-- Character kept by `replace(/[^\w\s-]/g, '')`. -/
def keepChar (c : Char) : Bool := isWordChar c || isJsSpace c || c = '-'

/-- State machine for `replace(/X+/g, r)`: each maximal run of characters
satisfying `p` is replaced by the single character `r`.  The Boolean flag
records whether the previous input character was part of a run. -/
def collapseRuns (p : Char → Bool) (r : Char) : Bool → List Char → List Char
  | _, [] => []
  | inRun, c :: cs =>
    if p c then
      if inRun then collapseRuns p r true cs
      else r :: collapseRuns p r true cs
    else c :: collapseRuns p r false cs

def spaceOrUnderscore (c : Char) : Bool := isJsSpace c || c = '_'

def isHyphen (c : Char) : Bool := c = '-'

/-- Drop the leading hyphen run (the `^-+` half of the trimming regex). -/
def trimLead (l : List Char) : List Char := l.dropWhile isHyphen

/-- Drop the trailing hyphen run (the `-+$` half of the trimming regex). -/
def trimTrail (l : List Char) : List Char :=
  ((l.reverse).dropWhile isHyphen).reverse

/-- The slug pipeline on character lists. -/
def slugifyList (l : List Char) : List Char :=
  (trimTrail (trimLead
    (collapseRuns isHyphen '-' false
      (collapseRuns spaceOrUnderscore '-' false
        ((l.map jsToLower).filter keepChar))))).take 50

/-- `slugify` from `src/server/utils/slugify.ts`. -/
def slugify (s : String) : String := ⟨slugifyList s.data⟩

/-! ### Properties of the slug pipeline -/

lemma collapseRuns_cons_run_true {p : Char → Bool} {r d : Char} {cs : List Char}
    (hd : p d = true) :
    collapseRuns p r true (d :: cs) = collapseRuns p r true cs := by
  simp [collapseRuns, hd]

lemma collapseRuns_cons_run_false {p : Char → Bool} {r d : Char} {cs : List Char}
    (hd : p d = true) :
    collapseRuns p r false (d :: cs) = r :: collapseRuns p r true cs := by
  simp [collapseRuns, hd]

lemma collapseRuns_cons_norun {p : Char → Bool} {r d : Char} {cs : List Char}
    {b : Bool} (hd : p d = false) :
    collapseRuns p r b (d :: cs) = d :: collapseRuns p r false cs := by
  simp [collapseRuns, hd]

lemma mem_collapseRuns {p : Char → Bool} {r : Char} :
    ∀ {b : Bool} {l : List Char} {c : Char}, c ∈ collapseRuns p r b l →
      c = r ∨ (c ∈ l ∧ p c = false) := by
  intro b l
  induction l generalizing b with
  | nil => intro c h; simp [collapseRuns] at h
  | cons d cs ih =>
    intro c h
    by_cases hd : p d
    · cases b with
      | true =>
        rw [collapseRuns_cons_run_true hd] at h
        rcases ih h with h' | ⟨hm, hp⟩
        · exact Or.inl h'
        · exact Or.inr ⟨List.mem_cons_of_mem d hm, hp⟩
      | false =>
        rw [collapseRuns_cons_run_false hd] at h
        rcases List.mem_cons.mp h with h' | h'
        · exact Or.inl h'
        · rcases ih h' with h'' | ⟨hm, hp⟩
          · exact Or.inl h''
          · exact Or.inr ⟨List.mem_cons_of_mem d hm, hp⟩
    · have hd' : p d = false := by simpa using hd
      rw [collapseRuns_cons_norun hd'] at h
      rcases List.mem_cons.mp h with h' | h'
      · exact Or.inr ⟨by simp [h'], by rw [h']; exact hd'⟩
      · rcases ih h' with h'' | ⟨hm, hp⟩
        · exact Or.inl h''
        · exact Or.inr ⟨List.mem_cons_of_mem d hm, hp⟩

/-- In the run-collapsing state machine with `inRun = true`, the first
emitted character never satisfies `p` (runs are swallowed first). -/
lemma collapseRuns_head_true {p : Char → Bool} {r : Char} :
    ∀ {l : List Char} {c : Char},
      (collapseRuns p r true l).head? = some c → p c = false := by
  intro l
  induction l with
  | nil => intro c h; simp [collapseRuns] at h
  | cons d cs ih =>
    intro c h
    by_cases hd : p d
    · rw [collapseRuns_cons_run_true hd] at h
      exact ih h
    · have hd' : p d = false := by simpa using hd
      rw [collapseRuns_cons_norun hd'] at h
      simp only [List.head?_cons, Option.some.injEq] at h
      rw [← h]; exact hd'

/-- After collapsing hyphen runs, no two adjacent characters are both
hyphens. -/
lemma collapseRuns_chain' :
    ∀ (l : List Char) (b : Bool),
      List.Chain' (fun a c => ¬(a = '-' ∧ c = '-'))
        (collapseRuns isHyphen '-' b l) := by
  intro l
  induction l with
  | nil => intro b; simp [collapseRuns]
  | cons d cs ih =>
    intro b
    by_cases hd : isHyphen d
    · cases b with
      | true => rw [collapseRuns_cons_run_true hd]; exact ih true
      | false =>
        rw [collapseRuns_cons_run_false hd]
        refine List.chain'_cons'.mpr ⟨?_, ih true⟩
        intro y hy
        intro ⟨_, hy'⟩
        have := collapseRuns_head_true (p := isHyphen) (r := '-') (l := cs) hy
        rw [hy'] at this
        simp [isHyphen] at this
    · have hd' : isHyphen d = false := by simpa using hd
      rw [collapseRuns_cons_norun hd']
      refine List.chain'_cons'.mpr ⟨?_, ih false⟩
      intro y _ ⟨hdh, _⟩
      rw [hdh] at hd'
      simp [isHyphen] at hd'

/-- Character-level core of the alphabet property: any character that
survives lowercasing, the keep-filter, and both run replacements is a
lowercase letter, a digit, or a hyphen. -/
lemma isSlugChar_of_survivor (c : Char)
    (hk : keepChar c = true)
    (hs : spaceOrUnderscore c = false)
    (hup : (65 ≤ c.toNat && c.toNat ≤ 90) = false) :
    isSlugChar c = true := by
  simp only [spaceOrUnderscore, Bool.or_eq_false_iff, decide_eq_false_iff_not] at hs
  obtain ⟨hsp, hund⟩ := hs
  simp only [keepChar, isWordChar, Bool.or_eq_true, decide_eq_true_eq] at hk
  rcases hk with ((((hu | hl) | hd) | hund') | hsp') | hhy
  · rw [hu] at hup; exact absurd hup (by decide)
  · simp [isSlugChar, isLowerAlpha, hl]
  · simp [isSlugChar, isAsciiDigit, hd]
  · exact absurd hund' hund
  · rw [hsp'] at hsp; exact absurd hsp (by decide)
  · simp [isSlugChar, hhy]

/-- `jsToLower` never produces an uppercase ASCII letter. -/
lemma jsToLower_not_upper (c : Char) :
    (65 ≤ (jsToLower c).toNat && (jsToLower c).toNat ≤ 90) = false := by
  unfold jsToLower
  by_cases h : 65 ≤ c.toNat ∧ c.toNat ≤ 90
  · rw [if_pos h]
    obtain ⟨h1, h2⟩ := h
    set n := c.toNat with hn
    interval_cases n <;> decide
  · rw [if_neg h]
    rcases not_and_or.mp h with h1 | h1
    · simp [decide_eq_false h1]
    · simp [decide_eq_false h1]

lemma head?_dropWhile {p : Char → Bool} :
    ∀ {l : List Char} {c : Char}, (l.dropWhile p).head? = some c → p c = false := by
  intro l
  induction l with
  | nil => intro c h; simp [List.dropWhile] at h
  | cons d cs ih =>
    intro c h
    by_cases hd : p d
    · rw [List.dropWhile_cons_of_pos hd] at h
      exact ih h
    · have hd' : p d = false := by simpa using hd
      rw [List.dropWhile_cons_of_neg (by simp [hd'])] at h
      simp only [List.head?_cons, Option.some.injEq] at h
      rw [← h]; exact hd'

lemma head?_take {l : List Char} {n : Nat} {c : Char}
    (h : (l.take n).head? = some c) : l.head? = some c := by
  cases l with
  | nil => simp at h
  | cons a as =>
    cases n with
    | zero => simp at h
    | succ m => simpa using h

/-- `trimTrail l` followed by some remainder reassembles `l`. -/
lemma trimTrail_append (l : List Char) :
    ∃ t : List Char, trimTrail l ++ t = l := by
  obtain ⟨t, ht⟩ := List.dropWhile_suffix (l := l.reverse) (p := isHyphen)
  refine ⟨t.reverse, ?_⟩
  have := congrArg List.reverse ht
  simpa [List.reverse_append] using this

lemma head?_trimTrail {l : List Char} {c : Char}
    (h : (trimTrail l).head? = some c) : l.head? = some c := by
  obtain ⟨t, ht⟩ := trimTrail_append l
  cases hl : trimTrail l with
  | nil => rw [hl] at h; simp at h
  | cons a as =>
    rw [hl] at h ht
    simp only [List.head?_cons, Option.some.injEq] at h
    rw [← ht, List.cons_append, List.head?_cons, h]

lemma chain'_trimTrail {l : List Char}
    (h : List.Chain' (fun a c => ¬(a = '-' ∧ c = '-')) l) :
    List.Chain' (fun a c => ¬(a = '-' ∧ c = '-')) (trimTrail l) := by
  have hsym : List.Chain' (flip fun a c : Char => ¬(a = '-' ∧ c = '-')) l := by
    refine List.Chain'.imp ?_ h
    intro a c hac ⟨h1, h2⟩
    exact hac ⟨h2, h1⟩
  have hrev : List.Chain' (fun a c : Char => ¬(a = '-' ∧ c = '-')) l.reverse :=
    List.chain'_reverse.mpr hsym
  have hdrop : List.Chain' (fun a c : Char => ¬(a = '-' ∧ c = '-'))
      (l.reverse.dropWhile isHyphen) :=
    List.Chain'.suffix hrev (List.dropWhile_suffix _)
  have : List.Chain' (flip fun a c : Char => ¬(a = '-' ∧ c = '-'))
      (l.reverse.dropWhile isHyphen) := by
    refine List.Chain'.imp ?_ hdrop
    intro a c hac ⟨h1, h2⟩
    exact hac ⟨h2, h1⟩
  exact List.chain'_reverse.mpr this

lemma mem_trimTrail {l : List Char} {c : Char} (h : c ∈ trimTrail l) : c ∈ l := by
  obtain ⟨t, ht⟩ := trimTrail_append l
  rw [← ht]
  exact List.mem_append_left _ h

/-- Claim C5, alphabet and length part: every slug character is in
`[a-z0-9-]` and the slug has at most 50 characters, i.e. the slug matches
`^[a-z0-9-]{0,50}$`. -/
lemma slugifyList_alphabet (l : List Char) :
    ∀ c ∈ slugifyList l, isSlugChar c = true := by
  intro c hc
  unfold slugifyList at hc
  have hc1 : c ∈ trimTrail (trimLead
      (collapseRuns isHyphen '-' false
        (collapseRuns spaceOrUnderscore '-' false
          ((l.map jsToLower).filter keepChar)))) := List.take_subset _ _ hc
  have hc2 := mem_trimTrail hc1
  have hc3 : c ∈ collapseRuns isHyphen '-' false
      (collapseRuns spaceOrUnderscore '-' false
        ((l.map jsToLower).filter keepChar)) := by
    unfold trimLead at hc2
    exact (List.dropWhile_sublist _).subset hc2
  rcases mem_collapseRuns hc3 with hhy | ⟨hc4, _⟩
  · simp [isSlugChar, hhy]
  · rcases mem_collapseRuns hc4 with hhy | ⟨hc5, hns⟩
    · simp [isSlugChar, hhy]
    · rw [List.mem_filter] at hc5
      obtain ⟨hc6, hkeep⟩ := hc5
      obtain ⟨d, _, hd⟩ := List.mem_map.mp hc6
      refine isSlugChar_of_survivor c hkeep hns ?_
      rw [← hd]
      exact jsToLower_not_upper d

/-- Branch name format used by `GitManager.prepareBranch`. -/
def branchNameFor (featureId : Nat) (featureName : String) : String :=
  "feature/" ++ toString featureId ++ "-" ++ slugify featureName

lemma chain'_slugifyList (l : List Char) :
    List.Chain' (fun a c => ¬(a = '-' ∧ c = '-')) (slugifyList l) := by
  unfold slugifyList
  refine List.Chain'.take ?_ _
  refine chain'_trimTrail ?_
  refine List.Chain'.suffix ?_ (List.dropWhile_suffix _)
  exact collapseRuns_chain' _ false

lemma head_slugifyList {l : List Char} {c : Char}
    (h : (slugifyList l).head? = some c) : c ≠ '-' := by
  unfold slugifyList at h
  have h1 := head?_trimTrail (head?_take h)
  have h2 := head?_dropWhile (p := isHyphen) h1
  intro hc
  rw [hc] at h2
  simp [isHyphen] at h2

lemma length_slugifyList (l : List Char) : (slugifyList l).length ≤ 50 := by
  unfold slugifyList
  rw [List.length_take]
  exact Nat.min_le_left _ _

/-- Claim C5 (amended): for any feature name, the slug used in the branch
name `feature/<id>-<slug>` matches `^[a-z0-9-]{0,50}$` (every character
is a lowercase letter, digit or hyphen, and there are at most 50 of
them), has no leading hyphen and contains no `--`; it is computed by
lowercasing the name, removing characters other than word characters,
whitespace and hyphens, replacing whitespace/underscore runs with single
hyphens, collapsing hyphen runs, trimming leading/trailing hyphens, and
finally truncating to at most 50 characters.  Because the truncation
happens after the trimming, the slug may end in a hyphen (see the
counterexample); the "no trailing hyphen" part of the original claim is
dropped. -/
theorem slugify_slug_sound (name : String) :
    (∀ c ∈ (slugify name).data, isSlugChar c = true) ∧
    (slugify name).data.length ≤ 50 ∧
    (∀ c, (slugify name).data.head? = some c → c ≠ '-') ∧
    List.Chain' (fun a c => ¬(a = '-' ∧ c = '-')) (slugify name).data := by
  refine ⟨slugifyList_alphabet name.data, length_slugifyList name.data,
    ?_, chain'_slugifyList name.data⟩
  intro c hc
  exact head_slugifyList hc

/-- Witness for `slugify_slug_sound` at the concrete name "Hello, World!"
(whose slug is "hello-world"): its head is 'h', which the theorem then
shows is not a hyphen and is a valid slug character. -/
theorem slugify_slug_sound_witness : 'h' ≠ '-' ∧ isSlugChar 'h' = true :=
  ⟨(slugify_slug_sound "Hello, World!").2.2.1 'h' (by decide),
   (slugify_slug_sound "Hello, World!").1 'h' (by decide)⟩

/-- Claim C5 counterexample: slugifying the 51-character name of 49 'a's
followed by " b" gives 49 'a's followed by a hyphen — the trimming runs
before the 50-character truncation, so the truncated slug ends in '-',
refuting the claim's "no trailing hyphen". -/
theorem slugify_trailing_hyphen_cex :
    (slugify ⟨List.replicate 49 'a' ++ [' ', 'b']⟩).data.getLast? = some '-' := by
  decide

/-! ### Regex fragments used by the failure classifiers

The sources match plain-text heuristics of three shapes: literal
substrings (case-insensitive), sequences `a.*b` of literals separated by
`.*` (which in JavaScript does not cross a newline, so such a pattern
matches iff some newline-delimited line contains the literals in order),
and the literal `429` guarded by word boundaries.  Case-insensitivity is
modelled by lowercasing the subject; the pattern literals are written in
lowercase. -/

def lowerList (l : List Char) : List Char := l.map jsToLower

/-- The remainder of `s` after the first occurrence of `pat`, if any. -/
def dropAfterFirst (pat : List Char) : List Char → Option (List Char)
  | [] => if pat.isEmpty then some [] else none
  | c :: cs =>
    if pat.isPrefixOf (c :: cs) then some ((c :: cs).drop pat.length)
    else dropAfterFirst pat cs

/-- Substring test. -/
def containsSub (pat s : List Char) : Bool := (dropAfterFirst pat s).isSome

/-- The literals occur in order, each after the end of the previous. -/
def inOrder : List (List Char) → List Char → Bool
  | [], _ => true
  | p :: rest, s =>
    match dropAfterFirst p s with
    | some s' => inOrder rest s'
    | none => false

/-- `/a.*b/i`-style test: some newline-delimited line of the lowercased
subject contains the (lowercase) literals in order. -/
def lineSeqMatch (parts : List String) (s : List Char) : Bool :=
  ((lowerList s).splitOn '\n').any (fun line => inOrder (parts.map String.data) line)

/-- Case-insensitive substring test. -/
def containsCI (pat : String) (s : List Char) : Bool :=
  containsSub pat.data (lowerList s)

/-- Does `s` start with `429` followed by a word boundary? -/
def word429At : List Char → Bool
  | '4' :: '2' :: '9' :: rest =>
    match rest with
    | [] => true
    | d :: _ => !(isWordChar d)
  | _ => false

/-- Scan for a match of `hereTest` starting at a position preceded by a
non-word character (or at the start): the `\b` left boundary for patterns
that begin with a word character. -/
def scanBoundedAux (hereTest : List Char → Bool) : Bool → List Char → Bool
  | _, [] => false
  | prevWord, c :: cs =>
    (!prevWord && hereTest (c :: cs)) || scanBoundedAux hereTest (isWordChar c) cs

/-- Scan for a match of `hereTest` at any position. -/
def scanAnywhere (hereTest : List Char → Bool) : List Char → Bool
  | [] => false
  | c :: cs => hereTest (c :: cs) || scanAnywhere hereTest cs

/-- The orchestrator regex with both boundaries around `429`. -/
def has429Bounded (s : List Char) : Bool := scanBoundedAux word429At false s

/-- The executor regex with only the trailing boundary after `429`. -/
def has429Trail (s : List Char) : Bool := scanAnywhere word429At s

/-! ### Failure analysis (`Orchestrator.analyzeFailure`, part_004)

`TEST_ONLY_PATTERNS` and `RATE_LIMIT_PATTERNS` are the regex lists at the
top of the orchestrator source.  Alternations `x|y` become `||`;
`requests?` is modelled as `request` because the optional `s` is absorbed
by the following `.*`. -/

def testOnlyMatch (s : List Char) : Bool :=
  lineSeqMatch ["test", "fail"] s || lineSeqMatch ["tests", "fail"] s ||
  lineSeqMatch ["assertion", "fail"] s ||
  lineSeqMatch ["browser", "test", "fail"] s ||
  lineSeqMatch ["expected", "but", "received"] s ||
  lineSeqMatch ["expect(", ").to"] s ||
  lineSeqMatch ["verification", "fail"] s || lineSeqMatch ["could not verify"] s

def rateLimitMatchOrch (s : List Char) : Bool :=
  lineSeqMatch ["rate limit"] s || lineSeqMatch ["too many requests"] s ||
  has429Bounded (lowerList s) ||
  lineSeqMatch ["quota"] s || lineSeqMatch ["exceeded", "quota"] s ||
  lineSeqMatch ["usage limit"] s || lineSeqMatch ["limit", "reached"] s ||
  lineSeqMatch ["hit your limit"] s || lineSeqMatch ["usage exceeded"] s ||
  lineSeqMatch ["token limit"] s || lineSeqMatch ["request", "limit"] s ||
  lineSeqMatch ["overloaded"] s || lineSeqMatch ["capacity"] s ||
  lineSeqMatch ["temporarily unavailable"] s || lineSeqMatch ["try again later"] s

/-- A configured critical pattern: a compiled regex (modelled as a test
function on the combined text) with its label. -/
structure CriticalPattern where
  test : String → Bool
  label : String

inductive FailureCategory
  | environment
  | test_only
  | implementation
  | verification
  | rate_limit
  | unknown
deriving DecidableEq

structure FailureAnalysis where
  reason : String
  category : FailureCategory
  isCritical : Bool
  criticalLabel : Option String
deriving DecidableEq

/-- JavaScript `String.prototype.trim` (ASCII whitespace). -/
def jsTrim (l : List Char) : List Char :=
  ((l.dropWhile isJsSpace).reverse.dropWhile isJsSpace).reverse

/-- The line filter of the reason extraction:
`/error|fail|fatal|exception|cannot|unable/i`. -/
def hasErrorWord (lowLine : List Char) : Bool :=
  containsSub "error".data lowLine || containsSub "fail".data lowLine ||
  containsSub "fatal".data lowLine || containsSub "exception".data lowLine ||
  containsSub "cannot".data lowLine || containsSub "unable".data lowLine

/-- `Orchestrator.analyzeFailure(output, error?)`. -/
def analyzeFailure (critical : List CriticalPattern) (output : String)
    (error : Option String) : FailureAnalysis :=
  let combined : String := output ++ "\n" ++ error.getD ""
  match critical.find? (fun cp => cp.test combined) with
  | some cp => ⟨cp.label, .environment, true, some cp.label⟩
  | none =>
    if testOnlyMatch combined.data then
      ⟨"Implementation complete but verification/tests failed", .test_only, false, none⟩
    else if rateLimitMatchOrch combined.data then
      ⟨"Rate limit reached", .rate_limit, false, none⟩
    else
      let lines := (combined.data.splitOn '\n').filter fun l => !(jsTrim l).isEmpty
      let errorLines := lines.filter fun l => hasErrorWord (lowerList l)
      match errorLines.getLast? with
      | some last => ⟨⟨(jsTrim last).take 200⟩, .implementation, false, none⟩
      | none =>
        match error with
        | some e => if e = "" then ⟨"Unknown failure", .unknown, false, none⟩
                    else ⟨e, .unknown, false, none⟩
        | none => ⟨"Unknown failure", .unknown, false, none⟩

/-- Claim C4 counterexample: on the combined output
`expected 1 to equal 2` (no critical patterns configured), failure
analysis does NOT return `test_only` — the token contains no "fail", no
"but ... received" and no "expect(", so no test-only pattern matches. -/
theorem analyzeFailure_expected_token_cex :
    (analyzeFailure [] "expected 1 to equal 2" none).category ≠
      FailureCategory.test_only := by decide

/-- Claim C4 (amended): on the combined output `expected 1 to equal 2`
(no critical patterns configured) failure analysis returns kind
`unknown` with reason "Unknown failure": the token matches none of the
test-only, rate-limit, or error-line patterns. -/
theorem analyzeFailure_expected_token_unknown :
    analyzeFailure [] "expected 1 to equal 2" none =
      ⟨"Unknown failure", FailureCategory.unknown, false, none⟩ := by decide

/-! ### Agent executor exit classification (`AgentExecutor.isRateLimitError`,
part_005) -/

structure AgentAttempt where
  exitCode : Option Int
  output : String
  stderr : Option String
  error : Option String

inductive AgentName
  | claude
  | codex
  | gemini
deriving DecidableEq

/-- `` `${result.output}\n${result.stderr || ''}\n${result.error || ''}` ``. -/
def attemptCombined (r : AgentAttempt) : String :=
  r.output ++ "\n" ++ r.stderr.getD "" ++ "\n" ++ r.error.getD ""

/-- The executor's `rateSignals` list (same phrases as the orchestrator
list, but `429` with only a trailing boundary). -/
def rateSignalExec (s : List Char) : Bool :=
  lineSeqMatch ["rate limit"] s || lineSeqMatch ["too many requests"] s ||
  has429Trail (lowerList s) ||
  lineSeqMatch ["quota"] s || lineSeqMatch ["exceeded", "quota"] s ||
  lineSeqMatch ["usage limit"] s || lineSeqMatch ["limit", "reached"] s ||
  lineSeqMatch ["hit your limit"] s || lineSeqMatch ["usage exceeded"] s ||
  lineSeqMatch ["token limit"] s || lineSeqMatch ["request", "limit"] s ||
  lineSeqMatch ["overloaded"] s || lineSeqMatch ["capacity"] s ||
  lineSeqMatch ["temporarily unavailable"] s || lineSeqMatch ["try again later"] s

/-- The agent-identifying token alternations of `isRateLimitError`. -/
def agentTokenMatch : AgentName → List Char → Bool
  | .claude, s => containsCI "anthropic" s || containsCI "claude" s
  | .gemini, s => containsCI "google" s || containsCI "gemini" s
  | .codex, s => containsCI "openai" s || containsCI "codex" s || containsCI "oai" s

/-- `AgentExecutor.isRateLimitError(result, agent)`. -/
def isRateLimitError (r : AgentAttempt) (agent : AgentName) : Bool :=
  if r.exitCode = some 0 then false
  else
    let combined := (attemptCombined r).data
    let matchesRateSignal := rateSignalExec combined
    match agent with
    | .claude => matchesRateSignal || agentTokenMatch .claude combined
    | .gemini => matchesRateSignal || agentTokenMatch .gemini combined
    | .codex =>
      matchesRateSignal &&
        (agentTokenMatch .codex combined || has429Trail combined)

/-- Claim C3 counterexample: a claude attempt that exits 1 with combined
text "claude\n\nProcess exited with code 1" is classified rate-limited
even though NO rate-limit phrase matches — the claude branch accepts the
agent token alone (an `or`, not a required co-occurrence). -/
theorem isRateLimitError_claude_cex :
    isRateLimitError ⟨some 1, "claude", some "", some "Process exited with code 1"⟩
        AgentName.claude = true ∧
    rateSignalExec (attemptCombined
        ⟨some 1, "claude", some "", some "Process exited with code 1"⟩).data = false := by
  decide

/-- The classification described by the amended claim, stated from the
spec side for comparison with the code's `isRateLimitError`: a non-zero
exit is classified rate-limited iff — for claude and gemini — a
rate-limit phrase matches OR an agent-identifying token occurs, and — for
codex — a rate-limit phrase matches AND additionally a codex token or a
boundary-guarded `429` occurs. -/
def specRateLimited (r : AgentAttempt) (agent : AgentName) : Prop :=
  r.exitCode ≠ some 0 ∧
  match agent with
  | .codex =>
    rateSignalExec (attemptCombined r).data = true ∧
      (agentTokenMatch .codex (attemptCombined r).data = true ∨
       has429Trail (attemptCombined r).data = true)
  | .claude =>
    rateSignalExec (attemptCombined r).data = true ∨
      agentTokenMatch .claude (attemptCombined r).data = true
  | .gemini =>
    rateSignalExec (attemptCombined r).data = true ∨
      agentTokenMatch .gemini (attemptCombined r).data = true

/-- Claim C3 (amended): the executor classifies an attempt as
rate-limited exactly under `specRateLimited`: never on exit code 0; for
claude and gemini when a rate-limit phrase OR an agent token occurs; for
codex only when a rate-limit phrase occurs AND a codex token or a
boundary-guarded `429` co-occurs. -/
theorem isRateLimitError_characterization (r : AgentAttempt) (agent : AgentName) :
    isRateLimitError r agent = true ↔ specRateLimited r agent := by
  unfold isRateLimitError specRateLimited
  by_cases h : r.exitCode = some 0
  · rw [if_pos h]
    simp [h]
  · rw [if_neg h]
    cases agent <;>
      simp [h, Bool.or_eq_true, Bool.and_eq_true]

/-! ### Verification verdict scan (`Orchestrator.verifyAndMerge`, part_004)

`/\bVERDICT:\s*FAIL/i` and the step-fail regex (`STEP`, whitespace,
digits, colon, optional whitespace, `FAIL`, with a leading word
boundary).  Both are matched against the lowercased output; `\s` may
cross lines, so the scan is over the whole output. -/

def stripLit (pat s : List Char) : Option (List Char) :=
  if pat.isPrefixOf s then some (s.drop pat.length) else none

/-- Match `VERDICT:\s*FAIL` at the current position (subject lowercased). -/
def verdictFailAt (s : List Char) : Bool :=
  match stripLit "verdict:".data s with
  | some rest => "fail".data.isPrefixOf (rest.dropWhile isJsSpace)
  | none => false

/-- Match `STEP\s+\d+:\s*FAIL` at the current position (subject
lowercased); `\s+` and `\d+` are one required character followed by a
greedy run, which is deterministic because the follow-up characters are
outside the repeated class. -/
def stepFailAt (s : List Char) : Bool :=
  match stripLit "step".data s with
  | some (c :: rest) =>
    isJsSpace c &&
      (match rest.dropWhile isJsSpace with
       | d :: rest2 =>
         isAsciiDigit d &&
           (match rest2.dropWhile isAsciiDigit with
            | ':' :: rest3 => "fail".data.isPrefixOf (rest3.dropWhile isJsSpace)
            | _ => false)
       | [] => false)
  | _ => false

/-- The FAIL-verdict scan of `verifyAndMerge` (step 7 of the merge+verify
loop): `outputHasFailVerdict`. -/
def hasFailVerdict (output : String) : Bool :=
  let t := lowerList output.data
  scanBoundedAux verdictFailAt false t || scanBoundedAux stepFailAt false t

/-- Result of one verification agent run, as consumed by the verdict
evaluation (`success` is exit code 0). -/
structure VerifyExecResult where
  success : Bool
  output : String

inductive SessionStatus
  | running
  | passed
  | failed
  | error
deriving DecidableEq

structure VerifyAttemptEval where
  sessionStatus : SessionStatus
  marksFeaturePassed : Bool
deriving DecidableEq

/-- The evaluation step of one verification attempt: `verifyPassed`
requires exit 0 AND no FAIL verdict in the output; the verification
session is recorded with that status, and only a passed evaluation takes
the branch that marks the feature passed. -/
def evaluateVerifyAttempt (r : VerifyExecResult) : VerifyAttemptEval :=
  let outputHasFailVerdict := hasFailVerdict r.output
  let passed := r.success && !outputHasFailVerdict
  ⟨if passed then .passed else .failed, passed⟩

lemma scanBoundedAux_append {t : List Char → Bool} (l₁ l₂ : List Char)
    (h : ∀ b, scanBoundedAux t b l₂ = true) :
    ∀ b, scanBoundedAux t b (l₁ ++ l₂) = true := by
  induction l₁ with
  | nil => intro b; exact h b
  | cons c cs ih =>
    intro b
    show (!b && t (c :: (cs ++ l₂)) || scanBoundedAux t (isWordChar c) (cs ++ l₂)) = true
    rw [ih (isWordChar c)]
    simp

lemma scanBoundedAux_cons_newline {t : List Char → Bool} {m : List Char}
    (hne : m ≠ []) (hm : t m = true) :
    ∀ b, scanBoundedAux t b ('\n' :: m) = true := by
  intro b
  cases m with
  | nil => exact absurd rfl hne
  | cons c cs =>
    show (!b && t ('\n' :: c :: cs) ||
      scanBoundedAux t (isWordChar '\n') (c :: cs)) = true
    have hw : isWordChar '\n' = false := by decide
    rw [hw]
    show (!b && t ('\n' :: c :: cs) ||
      (!false && t (c :: cs) || scanBoundedAux t (isWordChar c) cs)) = true
    rw [hm]
    simp

lemma isPrefixOf_append_self (p b : List Char) :
    p.isPrefixOf (p ++ b) = true :=
  List.isPrefixOf_iff_prefix.mpr ⟨b, rfl⟩

lemma stripLit_append' (p m : List Char) :
    stripLit p (p ++ m) = some m := by
  unfold stripLit
  rw [if_pos (isPrefixOf_append_self p m), List.drop_left]

lemma dropWhile_all_append {p : Char → Bool} {ds : List Char} (m : List Char)
    (h : ∀ c ∈ ds, p c = true) :
    (ds ++ m).dropWhile p = m.dropWhile p := by
  induction ds with
  | nil => rfl
  | cons d t ih =>
    rw [List.cons_append, List.dropWhile_cons_of_pos (h d (by simp))]
    exact ih fun c hc => h c (by simp [hc])

lemma isJsSpace_eq_false_of_digit {c : Char} (h : isAsciiDigit c = true) :
    isJsSpace c = false := by
  have h' : 48 ≤ c.toNat ∧ c.toNat ≤ 57 := by simpa [isAsciiDigit] using h
  unfold isJsSpace
  simp only [Bool.or_eq_false_iff, decide_eq_false_iff_not]
  refine ⟨⟨⟨⟨⟨?_, ?_⟩, ?_⟩, ?_⟩, ?_⟩, ?_⟩ <;>
    · intro hc
      rw [hc] at h'
      exact absurd h'.1 (by decide)

/-- `VERDICT: FAIL` matches the verdict pattern wherever it starts. -/
lemma verdictFailAt_concrete (x : List Char) :
    verdictFailAt ("verdict: fail".data ++ x) = true := by
  simp [verdictFailAt, stripLit, List.isPrefixOf, isJsSpace, List.cons_append,
    List.dropWhile_cons]

/-- `STEP <digits>: FAIL` matches the step pattern wherever it starts. -/
lemma stepFailAt_concrete (ds x : List Char) (hne : ds ≠ [])
    (hds : ∀ c ∈ ds, isAsciiDigit c = true) :
    stepFailAt ("step ".data ++ ds ++ ": fail".data ++ x) = true := by
  cases ds with
  | nil => exact absurd rfl hne
  | cons d dt =>
    have hd : isAsciiDigit d = true := hds d (by simp)
    have hdt : ∀ c ∈ dt, isAsciiDigit c = true := fun c hc => hds c (by simp [hc])
    have hnsp : isJsSpace d = false := isJsSpace_eq_false_of_digit hd
    have h1 : isJsSpace ' ' = true := by decide
    have h2 : isJsSpace 'f' = false := by decide
    have h3 : isAsciiDigit ':' = false := by decide
    simp [stepFailAt, stripLit, List.isPrefixOf, List.cons_append,
      List.dropWhile_cons, hd, hnsp, h1, h2, h3, dropWhile_all_append _ hdt]

lemma jsToLower_digit {c : Char} (h : isAsciiDigit c = true) : jsToLower c = c := by
  have h' : 48 ≤ c.toNat ∧ c.toNat ≤ 57 := by simpa [isAsciiDigit] using h
  unfold jsToLower
  rw [if_neg]
  omega

/-- Claim C9: in the merge-and-verify flow, even when the verification
agent exits with code 0, an output containing a `VERDICT: FAIL` (or a
`STEP N: FAIL` line, `N` a digit string) makes `outputHasFailVerdict`
fire, whereupon the attempt is treated as failed: the verification
session is recorded as failed and the attempt does not take the branch
that marks the feature passed. -/
theorem verify_fail_verdict_treated_as_failed :
    (∀ r : VerifyExecResult, hasFailVerdict r.output = true →
      (evaluateVerifyAttempt r).sessionStatus = SessionStatus.failed ∧
      (evaluateVerifyAttempt r).marksFeaturePassed = false) ∧
    (∀ pre suf : String,
      hasFailVerdict (pre ++ "\nVERDICT: FAIL" ++ suf) = true) ∧
    (∀ (pre suf : String) (ds : List Char), ds ≠ [] →
      (∀ c ∈ ds, isAsciiDigit c = true) →
      hasFailVerdict (pre ++ "\nSTEP " ++ (⟨ds⟩ : String) ++ ": FAIL" ++ suf) = true) := by
  refine ⟨?_, ?_, ?_⟩
  · intro r h
    unfold evaluateVerifyAttempt
    rw [h]
    simp
  · intro pre suf
    unfold hasFailVerdict
    have key : scanBoundedAux verdictFailAt false
        (lowerList (pre ++ "\nVERDICT: FAIL" ++ suf).data) = true := by
      have hdata : (pre ++ "\nVERDICT: FAIL" ++ suf).data =
          pre.data ++ ('\n' :: "VERDICT: FAIL".data) ++ suf.data := by
        simp [String.data_append]
      rw [hdata]
      unfold lowerList
      rw [List.map_append, List.map_append, List.append_assoc]
      have hV : ('\n' :: "VERDICT: FAIL".data).map jsToLower =
          '\n' :: "verdict: fail".data := by decide
      rw [hV, List.cons_append]
      refine scanBoundedAux_append _ _ ?_ false
      intro b
      exact scanBoundedAux_cons_newline (List.cons_ne_nil _ _)
        (verdictFailAt_concrete _) b
    show (scanBoundedAux verdictFailAt false
        (lowerList (pre ++ "\nVERDICT: FAIL" ++ suf).data) ||
      scanBoundedAux stepFailAt false
        (lowerList (pre ++ "\nVERDICT: FAIL" ++ suf).data)) = true
    rw [key]
    simp
  · intro pre suf ds hne hds
    unfold hasFailVerdict
    have key : scanBoundedAux stepFailAt false
        (lowerList (pre ++ "\nSTEP " ++ (⟨ds⟩ : String) ++ ": FAIL" ++ suf).data) = true := by
      have hdata : (pre ++ "\nSTEP " ++ (⟨ds⟩ : String) ++ ": FAIL" ++ suf).data =
          pre.data ++ (('\n' :: "STEP ".data) ++ (ds ++ (": FAIL".data ++ suf.data))) := by
        simp [String.data_append]
      rw [hdata]
      unfold lowerList
      rw [List.map_append, List.map_append, List.map_append, List.map_append]
      have hS : ('\n' :: "STEP ".data).map jsToLower = '\n' :: "step ".data := by decide
      have hF : ": FAIL".data.map jsToLower = ": fail".data := by decide
      have hds' : ds.map jsToLower = ds := by
        calc ds.map jsToLower = ds.map id :=
              List.map_congr_left fun a ha => jsToLower_digit (hds a ha)
          _ = ds := List.map_id ds
      rw [hS, hF, hds', List.cons_append]
      refine scanBoundedAux_append _ _ ?_ false
      intro b
      refine scanBoundedAux_cons_newline ?_ ?_ b
      · exact List.cons_ne_nil _ _
      · have := stepFailAt_concrete ds (suf.data.map jsToLower) hne hds
        simpa [List.append_assoc] using this
    show (scanBoundedAux verdictFailAt false
        (lowerList (pre ++ "\nSTEP " ++ (⟨ds⟩ : String) ++ ": FAIL" ++ suf).data) ||
      scanBoundedAux stepFailAt false
        (lowerList (pre ++ "\nSTEP " ++ (⟨ds⟩ : String) ++ ": FAIL" ++ suf).data)) = true
    rw [key]
    simp

/-- Witness for `verify_fail_verdict_treated_as_failed` at a concrete
verification result: exit 0 with output "STEP 1: PASS\nVERDICT: FAIL\n"
is recorded failed and does not mark the feature passed. -/
theorem verify_fail_verdict_witness :
    (evaluateVerifyAttempt ⟨true, "STEP 1: PASS\nVERDICT: FAIL\n"⟩).sessionStatus =
        SessionStatus.failed ∧
    (evaluateVerifyAttempt ⟨true, "STEP 1: PASS\nVERDICT: FAIL\n"⟩).marksFeaturePassed =
        false :=
  verify_fail_verdict_treated_as_failed.1 ⟨true, "STEP 1: PASS\nVERDICT: FAIL\n"⟩
    (by decide)

/-! ### Queue manager (src/server/services/queue-manager.ts)

Per track three queues (`main`, `retry`, `resume`), held in a map from
track name to queues; the map is modelled as an association list whose
first entry for a key is the one `Map.get` returns. -/

structure QueueItem where
  featureId : Nat
  isRetry : Bool
  isResume : Option Bool
  extraContext : Option String
  previousSessionId : Option String
deriving DecidableEq

structure TrackQueues where
  main : List QueueItem
  retry : List QueueItem
  resume : List QueueItem
deriving DecidableEq

def QMState := List (String × TrackQueues)

def lookupTrack (s : QMState) (t : String) : Option TrackQueues :=
  (s.find? fun e => e.1 = t).map fun e => e.2

/-- Replace the queues object of the first entry for track `t` (the
JavaScript code mutates the object returned by `Map.get`). -/
def setTrack : QMState → String → TrackQueues → QMState
  | [], _, _ => []
  | (k, v) :: rest, t, q =>
    if k = t then (k, q) :: rest else (k, v) :: setTrack rest t q

/-- `QueueManager.dequeue(track)`: resume first, then retry, then main,
`shift()`ing (removing the head of) the chosen queue. -/
def dequeue (s : QMState) (t : String) : Option QueueItem × QMState :=
  match lookupTrack s t with
  | none => (none, s)
  | some q =>
    match q.resume with
    | x :: xs => (some x, setTrack s t { q with resume := xs })
    | [] =>
      match q.retry with
      | x :: xs => (some x, setTrack s t { q with retry := xs })
      | [] =>
        match q.main with
        | x :: xs => (some x, setTrack s t { q with main := xs })
        | [] => (none, s)

/-- `QueueManager.enqueueRetry`: pushes to the back of the retry queue. -/
def enqueueRetry (s : QMState) (featureId : Nat) (t : String)
    (extraContext : String) (previousSessionId : Option String) : QMState :=
  match lookupTrack s t with
  | none => s
  | some q =>
    setTrack s t { q with retry :=
      q.retry ++ [⟨featureId, true, none, some extraContext, previousSessionId⟩] }

/-- `QueueManager.enqueueResume`: pushes to the back of the resume queue
(the item carries `isRetry: true, isResume: true`). -/
def enqueueResume (s : QMState) (featureId : Nat) (t : String)
    (extraContext : String) (previousSessionId : Option String) : QMState :=
  match lookupTrack s t with
  | none => s
  | some q =>
    setTrack s t { q with resume :=
      q.resume ++ [⟨featureId, true, some true, some extraContext, previousSessionId⟩] }

/-- Claim C6: for every track present in the queue map, `dequeue` returns
and removes the head of the resume queue when non-empty, otherwise the
head of the retry queue, otherwise the head of the main queue, otherwise
nothing (leaving the state unchanged); and each enqueue operation appends
at the back of its queue — so together with head removal, each of the
three queues is FIFO. -/
theorem dequeue_priority_fifo (s : QMState) (t : String) (q : TrackQueues)
    (h : lookupTrack s t = some q) :
    (∀ x xs, q.resume = x :: xs →
      dequeue s t = (some x, setTrack s t { q with resume := xs })) ∧
    (q.resume = [] → ∀ x xs, q.retry = x :: xs →
      dequeue s t = (some x, setTrack s t { q with retry := xs })) ∧
    (q.resume = [] → q.retry = [] → ∀ x xs, q.main = x :: xs →
      dequeue s t = (some x, setTrack s t { q with main := xs })) ∧
    (q.resume = [] → q.retry = [] → q.main = [] → dequeue s t = (none, s)) ∧
    (∀ fid ctx psid, enqueueRetry s fid t ctx psid =
      setTrack s t { q with retry := q.retry ++ [⟨fid, true, none, some ctx, psid⟩] }) ∧
    (∀ fid ctx psid, enqueueResume s fid t ctx psid =
      setTrack s t { q with resume := q.resume ++ [⟨fid, true, some true, some ctx, psid⟩] }) := by
  obtain ⟨qm, qr, qs⟩ := q
  refine ⟨?_, ?_, ?_, ?_, ?_, ?_⟩
  · intro x xs hr
    subst hr
    unfold dequeue
    rw [h]
  · intro hres x xs hr
    subst hres
    subst hr
    unfold dequeue
    rw [h]
  · intro hres hret x xs hm
    subst hres
    subst hret
    subst hm
    unfold dequeue
    rw [h]
  · intro hres hret hm
    subst hres
    subst hret
    subst hm
    unfold dequeue
    rw [h]
  · intro fid ctx psid
    unfold enqueueRetry
    rw [h]
  · intro fid ctx psid
    unfold enqueueResume
    rw [h]

/-- Witness for `dequeue_priority_fifo` on a one-track state whose resume
queue holds item 7: dequeue returns item 7 and leaves the other queues
untouched. -/
theorem dequeue_priority_fifo_witness :
    dequeue [("core", ⟨[⟨1, false, none, none, none⟩], [],
        [⟨7, true, some true, none, none⟩]⟩)] "core" =
      (some ⟨7, true, some true, none, none⟩,
       [("core", ⟨[⟨1, false, none, none, none⟩], [], []⟩)]) := by
  have h := dequeue_priority_fifo
    [("core", ⟨[⟨1, false, none, none, none⟩], [], [⟨7, true, some true, none, none⟩]⟩)]
    "core" ⟨[⟨1, false, none, none, none⟩], [], [⟨7, true, some true, none, none⟩]⟩
    (by decide)
  exact h.1 ⟨7, true, some true, none, none⟩ [] rfl

/-! ### Feature store (src/server/services/feature-store.ts)

The feature file is parsed JSON: either a bare array of features or a
wrapped object `{ features: [...], ...extra }`; the form and the extra
keys are preserved on write.  The bytes written are
`JSON.stringify(value, null, 2)` — a deterministic function of the
stored value (key order is preserved by the in-place field updates), so
the file contents are modelled as a deterministic serialization of the
value. -/

inductive FeatureStatus
  | opened
  | verifying
  | passed
  | failed
deriving DecidableEq

structure Feature where
  id : Nat
  category : String
  name : String
  description : String
  steps : List String
  status : FeatureStatus
  failure_reason : Option String
  failure_category : Option FailureCategory
  progress : Option String
deriving DecidableEq

structure FeatureFile where
  wrapped : Bool
  features : List Feature
  extra : List (String × String)
deriving DecidableEq

/-- JavaScript truthiness of an optional string (absent and the empty
string are falsy). -/
def truthy : Option String → Bool
  | some s => s != ""
  | none => false

/-- The per-feature mutation of `updateFeatureStatus`: set the status;
set the failure fields when the status is `failed` AND a truthy failure
reason was passed (the kind defaulting to `unknown`); clear them when the
status is `passed` or `open`; overwrite the progress when truthy. -/
def applyStatusUpdate (st : FeatureStatus) (failureReason : Option String)
    (failureCategory : Option FailureCategory) (progress : Option String)
    (f : Feature) : Feature :=
  let f1 := { f with status := st }
  let f2 :=
    if st = FeatureStatus.failed ∧ truthy failureReason then
      { f1 with failure_reason := failureReason,
                failure_category := some (failureCategory.getD FailureCategory.unknown) }
    else if st = FeatureStatus.passed ∨ st = FeatureStatus.opened then
      { f1 with failure_reason := none, failure_category := none }
    else f1
  if truthy progress then { f2 with progress := progress } else f2

def modifyAt (g : α → α) : Nat → List α → List α
  | _, [] => []
  | 0, x :: xs => g x :: xs
  | n + 1, x :: xs => x :: modifyAt g n xs

/-- `FeatureStore.updateFeatureStatus(id, status, failureReason?,
failureCategory?, progress?)`. -/
def updateFeatureStatus (file : FeatureFile) (id : Nat) (st : FeatureStatus)
    (failureReason : Option String) (failureCategory : Option FailureCategory)
    (progress : Option String) : Except String FeatureFile :=
  match file.features.findIdx? (fun f => f.id == id) with
  | none => .error ("Feature with id " ++ toString id ++ " not found")
  | some idx =>
    let g := applyStatusUpdate st failureReason failureCategory progress
    .ok { file with features := modifyAt g idx file.features }

/-! Serialization of the stored value: stands in for
`JSON.stringify(output, null, 2)`, which is deterministic in the value
(the second call parses exactly the bytes the first call wrote, and the
in-place updates preserve key order). -/

def serializeStatus : FeatureStatus → String
  | .opened => "open"
  | .verifying => "verifying"
  | .passed => "passed"
  | .failed => "failed"

def serializeCategory : FailureCategory → String
  | .environment => "environment"
  | .test_only => "test_only"
  | .implementation => "implementation"
  | .verification => "verification"
  | .rate_limit => "rate_limit"
  | .unknown => "unknown"

def serializeOptField (name : String) : Option String → String
  | some s => name ++ "=" ++ s ++ ";"
  | none => name ++ "=<absent>;"

def serializeFeature (f : Feature) : String :=
  "id=" ++ toString f.id ++ ";category=" ++ f.category ++ ";name=" ++ f.name ++
  ";description=" ++ f.description ++ ";steps=" ++
  String.intercalate "," f.steps ++ ";status=" ++
  serializeStatus f.status ++ ";" ++
  serializeOptField "failure_reason" f.failure_reason ++
  serializeOptField "failure_category" (f.failure_category.map serializeCategory) ++
  serializeOptField "progress" f.progress

def serializeFeatureFile (file : FeatureFile) : String :=
  (if file.wrapped then "wrapped:" else "array:") ++
  String.intercalate "\n" (file.features.map serializeFeature) ++
  "|extra:" ++ String.intercalate "," (file.extra.map fun e => e.1 ++ "=" ++ e.2)

/-- Claim C7 counterexample: starting from a feature whose stale failure
kind is `environment`, calling `updateFeatureStatus(1, failed)` with NO
failure reason sets the status but leaves both failure fields unchanged —
the kind stays `environment` instead of being set (with the claimed
`unknown` default). -/
theorem updateFeatureStatus_failed_no_reason_cex :
    updateFeatureStatus
        ⟨false, [⟨1, "core", "f", "d", [], .opened, some "old", some .environment, none⟩], []⟩
        1 .failed none none none =
      .ok ⟨false, [⟨1, "core", "f", "d", [], .failed, some "old", some .environment, none⟩], []⟩ := by
  rfl

lemma modifyAt_get? (g : α → α) :
    ∀ (n : Nat) (l : List α) (i : Nat),
      (modifyAt g n l).get? i = if i = n then (l.get? i).map g else l.get? i := by
  intro n
  induction n with
  | zero =>
    intro l i
    cases l with
    | nil => simp [modifyAt]
    | cons x xs =>
      cases i with
      | zero => simp [modifyAt]
      | succ j => simp [modifyAt]
  | succ m ih =>
    intro l i
    cases l with
    | nil => simp [modifyAt]
    | cons x xs =>
      cases i with
      | zero => simp [modifyAt]
      | succ j =>
        simp only [modifyAt, List.get?_cons_succ, ih xs j]
        by_cases hij : j = m
        · rw [if_pos hij, if_pos (by rw [hij])]
        · rw [if_neg hij, if_neg (by omega)]

/-- Claim C7 (amended): a successful
`updateFeatureStatus(id, status, failureReason?, failureKind?, progress?)`
leaves the file form, the extra keys and every other feature unchanged,
and transforms the feature at the found index as follows: the status is
set; when the status is `failed` AND a non-empty failure reason is
provided, the failure fields are set (the kind defaulting to `unknown`
when omitted); when the status becomes `passed` or `open`, the failure
fields are cleared; when the status is `failed` without a (non-empty)
reason, or `verifying`, the failure fields are left unchanged; a
non-empty progress overwrites the stored progress and otherwise the
progress is unchanged; all remaining fields of the feature are kept. -/
theorem updateFeatureStatus_spec (file : FeatureFile) (id : Nat)
    (st : FeatureStatus) (reason : Option String)
    (kind : Option FailureCategory) (progress : Option String)
    (out : FeatureFile)
    (h : updateFeatureStatus file id st reason kind progress = .ok out) :
    ∃ i, file.features.findIdx? (fun f => f.id == id) = some i ∧
      out.wrapped = file.wrapped ∧ out.extra = file.extra ∧
      (∀ j, j ≠ i → out.features.get? j = file.features.get? j) ∧
      (∀ f, file.features.get? i = some f →
        ∃ g, out.features.get? i = some g ∧
          g.id = f.id ∧ g.category = f.category ∧ g.name = f.name ∧
          g.description = f.description ∧ g.steps = f.steps ∧
          g.status = st ∧
          (st = .failed → truthy reason = true →
            g.failure_reason = reason ∧
            g.failure_category = some (kind.getD .unknown)) ∧
          ((st = .passed ∨ st = .opened) →
            g.failure_reason = none ∧ g.failure_category = none) ∧
          (st = .failed → truthy reason = false →
            g.failure_reason = f.failure_reason ∧
            g.failure_category = f.failure_category) ∧
          (st = .verifying →
            g.failure_reason = f.failure_reason ∧
            g.failure_category = f.failure_category) ∧
          (truthy progress = true → g.progress = progress) ∧
          (truthy progress = false → g.progress = f.progress)) := by
  unfold updateFeatureStatus at h
  cases hfind : file.features.findIdx? (fun f => f.id == id) with
  | none => rw [hfind] at h; exact absurd h (by simp)
  | some i =>
    rw [hfind] at h
    injection h with h
    subst h
    refine ⟨i, rfl, rfl, rfl, ?_, ?_⟩
    · intro j hj
      dsimp only
      rw [modifyAt_get? (applyStatusUpdate st reason kind progress) i
        file.features j, if_neg hj]
    · intro f hf
      refine ⟨applyStatusUpdate st reason kind progress f, ?_, ?_⟩
      · dsimp only
        rw [modifyAt_get? (applyStatusUpdate st reason kind progress) i
          file.features i, if_pos rfl, hf]
        rfl
      · unfold applyStatusUpdate
        dsimp only
        by_cases hc1 : st = FeatureStatus.failed ∧ truthy reason = true
        · rw [if_pos hc1]
          by_cases hp : truthy progress = true
          · rw [if_pos hp]
            refine ⟨rfl, rfl, rfl, rfl, rfl, rfl, ?_, ?_, ?_, ?_, ?_, ?_⟩
            · intro _ _; exact ⟨rfl, rfl⟩
            · intro hst; rw [hc1.1] at hst; rcases hst with hst | hst <;> cases hst
            · intro _ hr; rw [hr] at hc1; simp at hc1
            · intro hst; rw [hc1.1] at hst; cases hst
            · intro _; rfl
            · intro hp'; rw [hp'] at hp; cases hp
          · rw [if_neg hp]
            refine ⟨rfl, rfl, rfl, rfl, rfl, rfl, ?_, ?_, ?_, ?_, ?_, ?_⟩
            · intro _ _; exact ⟨rfl, rfl⟩
            · intro hst; rw [hc1.1] at hst; rcases hst with hst | hst <;> cases hst
            · intro _ hr; rw [hr] at hc1; simp at hc1
            · intro hst; rw [hc1.1] at hst; cases hst
            · intro hp'; rw [hp'] at hp; exact absurd rfl hp
            · intro _; rfl
        · rw [if_neg hc1]
          by_cases hc2 : st = FeatureStatus.passed ∨ st = FeatureStatus.opened
          · rw [if_pos hc2]
            by_cases hp : truthy progress = true
            · rw [if_pos hp]
              refine ⟨rfl, rfl, rfl, rfl, rfl, rfl, ?_, ?_, ?_, ?_, ?_, ?_⟩
              · intro hst hr; exact absurd ⟨hst, hr⟩ hc1
              · intro _; exact ⟨rfl, rfl⟩
              · intro hst _
                rcases hc2 with h2 | h2 <;> (rw [hst] at h2; cases h2)
              · intro hst
                rcases hc2 with h2 | h2 <;> (rw [hst] at h2; cases h2)
              · intro _; rfl
              · intro hp'; rw [hp'] at hp; cases hp
            · rw [if_neg hp]
              refine ⟨rfl, rfl, rfl, rfl, rfl, rfl, ?_, ?_, ?_, ?_, ?_, ?_⟩
              · intro hst hr; exact absurd ⟨hst, hr⟩ hc1
              · intro _; exact ⟨rfl, rfl⟩
              · intro hst _
                rcases hc2 with h2 | h2 <;> (rw [hst] at h2; cases h2)
              · intro hst
                rcases hc2 with h2 | h2 <;> (rw [hst] at h2; cases h2)
              · intro hp'; rw [hp'] at hp; exact absurd rfl hp
              · intro _; rfl
          · rw [if_neg hc2]
            by_cases hp : truthy progress = true
            · rw [if_pos hp]
              refine ⟨rfl, rfl, rfl, rfl, rfl, rfl, ?_, ?_, ?_, ?_, ?_, ?_⟩
              · intro hst hr; exact absurd ⟨hst, hr⟩ hc1
              · intro h2; exact absurd h2 hc2
              · intro _ _; exact ⟨rfl, rfl⟩
              · intro _; exact ⟨rfl, rfl⟩
              · intro _; rfl
              · intro hp'; rw [hp'] at hp; cases hp
            · rw [if_neg hp]
              refine ⟨rfl, rfl, rfl, rfl, rfl, rfl, ?_, ?_, ?_, ?_, ?_, ?_⟩
              · intro hst hr; exact absurd ⟨hst, hr⟩ hc1
              · intro h2; exact absurd h2 hc2
              · intro _ _; exact ⟨rfl, rfl⟩
              · intro _; exact ⟨rfl, rfl⟩
              · intro hp'; rw [hp'] at hp; exact absurd rfl hp
              · intro _; rfl

/-- Witness for `updateFeatureStatus_spec`: marking feature 1 passed on a
one-feature file clears its failure fields. -/
theorem updateFeatureStatus_spec_witness :
    ∃ i, ([⟨1, "core", "f", "d", [], .failed, some "r", some .unknown,
        none⟩] : List Feature).findIdx? (fun f => f.id == 1) = some i :=
  match updateFeatureStatus_spec
    ⟨false, [⟨1, "core", "f", "d", [], .failed, some "r", some .unknown, none⟩], []⟩
    1 .passed none none none
    ⟨false, [⟨1, "core", "f", "d", [], .passed, none, none, none⟩], []⟩
    (by rfl) with
  | ⟨i, hi, _⟩ => ⟨i, hi⟩

lemma applyStatusUpdate_id (st : FeatureStatus) (r : Option String)
    (k : Option FailureCategory) (pr : Option String) (f : Feature) :
    (applyStatusUpdate st r k pr f).id = f.id := by
  unfold applyStatusUpdate
  dsimp only
  split_ifs <;> rfl

lemma findIdx?_modifyAt {p : α → Bool} {g : α → α}
    (hpg : ∀ x, p (g x) = p x) :
    ∀ (n : Nat) (l : List α), (modifyAt g n l).findIdx? p = l.findIdx? p := by
  intro n
  induction n with
  | zero =>
    intro l
    cases l with
    | nil => rfl
    | cons x xs => simp [modifyAt, List.findIdx?_cons, hpg]
  | succ m ih =>
    intro l
    cases l with
    | nil => rfl
    | cons x xs => simp [modifyAt, List.findIdx?_cons, ih xs]

lemma modifyAt_modifyAt {g : α → α} (hgg : ∀ x, g (g x) = g x) :
    ∀ (n : Nat) (l : List α), modifyAt g n (modifyAt g n l) = modifyAt g n l := by
  intro n
  induction n with
  | zero =>
    intro l
    cases l with
    | nil => rfl
    | cons x xs => simp [modifyAt, hgg]
  | succ m ih =>
    intro l
    cases l with
    | nil => rfl
    | cons x xs => simp [modifyAt, ih xs]

lemma applyStatusUpdate_passed_idem (f : Feature) :
    applyStatusUpdate .passed none none none
      (applyStatusUpdate .passed none none none f) =
    applyStatusUpdate .passed none none none f := rfl

/-- Claim C8: calling `updateFeatureStatus(id, passed)` twice in a row is
idempotent: starting from any feature file in which the id resolves, the
second call returns exactly the file value the first call wrote, so the
serialized file contents after the second call equal those after the
first. -/
theorem updateFeatureStatus_passed_idempotent (file : FeatureFile) (id : Nat)
    (f1 : FeatureFile)
    (h : updateFeatureStatus file id .passed none none none = .ok f1) :
    updateFeatureStatus f1 id .passed none none none = .ok f1 ∧
    (∀ f2, updateFeatureStatus f1 id .passed none none none = .ok f2 →
      serializeFeatureFile f2 = serializeFeatureFile f1) := by
  have hmain : updateFeatureStatus f1 id .passed none none none = .ok f1 := by
    unfold updateFeatureStatus at h ⊢
    cases hfind : file.features.findIdx? (fun f => f.id == id) with
    | none => rw [hfind] at h; exact absurd h (by simp)
    | some i =>
      rw [hfind] at h
      injection h with h
      subst h
      have hfind1 : (modifyAt (applyStatusUpdate .passed none none none) i
          file.features).findIdx? (fun f => f.id == id) = some i := by
        rw [findIdx?_modifyAt (fun x => by rw [applyStatusUpdate_id])]
        exact hfind
      dsimp only
      rw [hfind1]
      dsimp only
      rw [modifyAt_modifyAt applyStatusUpdate_passed_idem]
  refine ⟨hmain, ?_⟩
  intro f2 h2
  rw [hmain] at h2
  injection h2 with h2
  rw [h2]

/-- Witness for `updateFeatureStatus_passed_idempotent` on a concrete
one-feature file. -/
theorem updateFeatureStatus_passed_idempotent_witness :
    updateFeatureStatus
        ⟨true, [⟨2, "ui", "g", "d", ["s1"], .passed, none, none, some "p"⟩], [("v", "1")]⟩
        2 .passed none none none =
      .ok ⟨true, [⟨2, "ui", "g", "d", ["s1"], .passed, none, none, some "p"⟩], [("v", "1")]⟩ :=
  (updateFeatureStatus_passed_idempotent
    ⟨true, [⟨2, "ui", "g", "d", ["s1"], .failed, some "r", some .environment, some "p"⟩], [("v", "1")]⟩
    2
    ⟨true, [⟨2, "ui", "g", "d", ["s1"], .passed, none, none, some "p"⟩], [("v", "1")]⟩
    (by rfl)).1

/-! ### Session log (src/server/services/session-db.ts)

One row per session.  `updateSession(id, updates)` filters the update
object's keys through a fixed allowlist (all `Session` columns except
`id` and `created_at`), returns without touching the database when no
allowed key is present, and otherwise runs
`UPDATE sessions SET <allowed keys> WHERE id = ?`.  The update object is
modelled with one `Option` per possible key — `some v` meaning the key
is present with value `v` (nullable columns hold an inner `Option`). -/

structure SessionRow where
  id : String
  feature_id : Nat
  track : String
  branch : String
  status : SessionStatus
  started_at : String
  finished_at : Option String
  duration_ms : Option Nat
  prompt : String
  retry_info : Option String
  full_output : Option String
  structured_messages : Option String
  error_message : Option String
  created_at : String
deriving DecidableEq

structure SessionUpdates where
  id : Option String
  feature_id : Option Nat
  track : Option String
  branch : Option String
  status : Option SessionStatus
  started_at : Option String
  finished_at : Option (Option String)
  duration_ms : Option (Option Nat)
  prompt : Option String
  retry_info : Option (Option String)
  full_output : Option (Option String)
  structured_messages : Option (Option String)
  error_message : Option (Option String)
  created_at : Option String
deriving DecidableEq

/-- Is at least one key of the fixed allowlist present?  (`id` and
`created_at` are not in the allowlist.) -/
def hasAllowedKey (u : SessionUpdates) : Bool :=
  u.feature_id.isSome || u.track.isSome || u.branch.isSome || u.status.isSome ||
  u.started_at.isSome || u.finished_at.isSome || u.duration_ms.isSome ||
  u.prompt.isSome || u.retry_info.isSome || u.full_output.isSome ||
  u.structured_messages.isSome || u.error_message.isSome

/-- Apply the allowed keys of `u` to a row: exactly the `SET` clause —
`id` and `created_at` are never copied from `u`. -/
def applyAllowed (u : SessionUpdates) (r : SessionRow) : SessionRow :=
  { r with
    feature_id := u.feature_id.getD r.feature_id,
    track := u.track.getD r.track,
    branch := u.branch.getD r.branch,
    status := u.status.getD r.status,
    started_at := u.started_at.getD r.started_at,
    finished_at := u.finished_at.getD r.finished_at,
    duration_ms := u.duration_ms.getD r.duration_ms,
    prompt := u.prompt.getD r.prompt,
    retry_info := u.retry_info.getD r.retry_info,
    full_output := u.full_output.getD r.full_output,
    structured_messages := u.structured_messages.getD r.structured_messages,
    error_message := u.error_message.getD r.error_message }

/-- `SessionDB.updateSession(id, updates)` on the table of rows. -/
def updateSession (db : List SessionRow) (sid : String) (u : SessionUpdates) :
    List SessionRow :=
  if hasAllowedKey u then
    db.map fun r => if r.id = sid then applyAllowed u r else r
  else db

/-- Claim C10: `updateSession` can change only allowlisted columns: every
row keeps its `id` and `created_at`; rows whose id differs from the
target are untouched; the `id` and `created_at` entries of the update
object are ignored (changing them cannot change the result); and an
update object with no allowed key leaves the database unchanged. -/
theorem updateSession_frame (db : List SessionRow) (sid : String)
    (u : SessionUpdates) :
    ((updateSession db sid u).map fun r => (r.id, r.created_at)) =
      (db.map fun r => (r.id, r.created_at)) ∧
    (∀ i r, db.get? i = some r → r.id ≠ sid →
      (updateSession db sid u).get? i = some r) ∧
    (∀ v w, updateSession db sid { u with id := v, created_at := w } =
      updateSession db sid u) ∧
    (hasAllowedKey u = false → updateSession db sid u = db) := by
  refine ⟨?_, ?_, ?_, ?_⟩
  · unfold updateSession
    by_cases hk : hasAllowedKey u = true
    · rw [if_pos hk, List.map_map]
      refine List.map_congr_left ?_
      intro r _
      by_cases hr : r.id = sid
      · simp [Function.comp, hr, applyAllowed]
      · simp [Function.comp, hr]
    · rw [if_neg hk]
  · intro i r hi hne
    unfold updateSession
    by_cases hk : hasAllowedKey u = true
    · rw [if_pos hk, List.get?_map, hi]
      simp [if_neg hne]
    · rw [if_neg hk]
      exact hi
  · intro v w
    rfl
  · intro hk
    unfold updateSession
    rw [if_neg (by rw [hk]; exact Bool.false_ne_true)]

/-- Witness for `updateSession_frame` on a one-row table: an update
targeting a different id leaves the row in place, and an update object
with no allowed keys (only `id`/`created_at` entries) changes nothing. -/
theorem updateSession_frame_witness :
    (updateSession
        [⟨"s1", 1, "core", "feature/1-x", .running, "t0", none, none, "p",
          none, none, none, none, "t0"⟩] "zzz"
        ⟨none, none, none, none, some .passed, none, none, none, none, none,
          none, none, none, none⟩).get? 0 =
      some ⟨"s1", 1, "core", "feature/1-x", .running, "t0", none, none, "p",
        none, none, none, none, "t0"⟩ ∧
    updateSession
        [⟨"s1", 1, "core", "feature/1-x", .running, "t0", none, none, "p",
          none, none, none, none, "t0"⟩] "s1"
        ⟨some "hack", none, none, none, none, none, none, none, none, none,
          none, none, none, some "hack"⟩ =
      [⟨"s1", 1, "core", "feature/1-x", .running, "t0", none, none, "p",
        none, none, none, none, "t0"⟩] :=
  ⟨(updateSession_frame
      [⟨"s1", 1, "core", "feature/1-x", .running, "t0", none, none, "p",
        none, none, none, none, "t0"⟩] "zzz"
      ⟨none, none, none, none, some .passed, none, none, none, none, none,
        none, none, none, none⟩).2.1 0
      ⟨"s1", 1, "core", "feature/1-x", .running, "t0", none, none, "p",
        none, none, none, none, "t0"⟩ (by rfl) (by decide),
   (updateSession_frame
      [⟨"s1", 1, "core", "feature/1-x", .running, "t0", none, none, "p",
        none, none, none, none, "t0"⟩] "s1"
      ⟨some "hack", none, none, none, none, none, none, none, none, none,
        none, none, none, some "hack"⟩).2.2.2 (by rfl)⟩

/-! ### Git workspace manager: preserved files (part_006)

`init`, `mergeLocally` and `revertMerge` read the preserved files into
memory first (`backupPreservedFiles`), run git commands, and write the
preserved bytes back (`restorePreservedFiles`) before returning — in
`mergeLocally` also on the merge-conflict path, where the merge is
aborted, the files restored, and the descriptive error thrown.  But not
every git command is guarded: `execGit` rethrows, and the commands run
outside the operations' try/catch blocks — `git worktree prune`, the
status/stash pair and the base-branch checkout in `init`; the base
checkout and `git rev-parse HEAD` in `mergeLocally` (after the per-file
`git checkout -- <file>` clean step, whose own failures ARE swallowed,
has already reverted the preserved files); the checkout and reset in
`revertMerge` — propagate through a `finally` that only releases the
mutex, so on those paths `restorePreservedFiles` never runs.  The file
system is a map from paths to file contents; each unguarded command (or
contiguous run of commands) is a `GitStep`: an adversarial effect plus an
`ok` flag, `ok = false` meaning the command throws after its effect. -/

def FS := String → Option String

/-- One unguarded git command (or contiguous run): its effect on the file
system, and whether it completes (`ok = false` models an `execGit` throw
after the effect). -/
structure GitStep where
  run : FS → FS
  ok : Bool

/-- `backupPreservedFiles`: path ↦ contents for each preserved file that
exists (a missing file is skipped). -/
def backupPreservedFiles (preserve : List String) (fs : FS) :
    List (String × String) :=
  preserve.filterMap fun f => (fs f).map fun c => (f, c)

def writeFS (fs : FS) (p c : String) : FS :=
  fun q => if q = p then some c else fs q

/-- `restorePreservedFiles`: write every backed-up content back. -/
def restorePreservedFiles (backups : List (String × String)) (fs : FS) : FS :=
  backups.foldl (fun acc e => writeFS acc e.1 e.2) fs

/-- `GitManager.init()`: backup; then the unguarded `git worktree prune`,
the status/conditional-stash pair, and the ensure-base-branch checkout
(each of which exits without restoring when it throws); then the pull
(whose throw is caught); restore last.  The `Option String` is the
propagated error, `none` on normal completion. -/
def initOp (preserve : List String) (pruneStep stashStep checkoutStep : GitStep)
    (pullPhase : FS → FS) (fs : FS) : Option String × FS :=
  let backups := backupPreservedFiles preserve fs
  let fs1 := pruneStep.run fs
  if pruneStep.ok then
    let fs2 := stashStep.run fs1
    if stashStep.ok then
      let fs3 := checkoutStep.run fs2
      if checkoutStep.ok then
        (none, restorePreservedFiles backups (pullPhase fs3))
      else (some "git checkout failed", fs3)
    else (some "git stash failed", fs2)
  else (some "git worktree prune failed", fs1)

/-- `GitManager.mergeLocally(branch)`: backup; clean the preserved paths
with per-file `git checkout -- <file>` (failures swallowed); the
unguarded base checkout; the pull (caught); the unguarded
`git rev-parse HEAD`; then the merge — on success restore and return the
pre-merge SHA, on merge failure abort (caught), restore, and throw the
descriptive error.  An unguarded checkout/rev-parse throw exits with NO
restore. -/
def mergeLocallyOp (preserve : List String) (cleanPhase : FS → FS)
    (checkoutStep : GitStep) (pullPhase : FS → FS)
    (revParseStep mergeStep : GitStep) (abortPhase : FS → FS)
    (fs : FS) : Option String × FS :=
  let backups := backupPreservedFiles preserve fs
  let fs1 := cleanPhase fs
  let fs2 := checkoutStep.run fs1
  if checkoutStep.ok then
    let fs3 := pullPhase fs2
    let fs4 := revParseStep.run fs3
    if revParseStep.ok then
      let fs5 := mergeStep.run fs4
      if mergeStep.ok then (none, restorePreservedFiles backups fs5)
      else (some "Failed to merge branch into base branch",
        restorePreservedFiles backups (abortPhase fs5))
    else (some "git rev-parse failed", fs4)
  else (some "git checkout failed", fs2)

/-- `GitManager.revertMerge(preMergeSha)`: backup; the unguarded checkout
and `git reset --hard` (each exits without restoring when it throws);
restore last. -/
def revertMergeOp (preserve : List String) (checkoutStep resetStep : GitStep)
    (fs : FS) : Option String × FS :=
  let backups := backupPreservedFiles preserve fs
  let fs1 := checkoutStep.run fs
  if checkoutStep.ok then
    let fs2 := resetStep.run fs1
    if resetStep.ok then (none, restorePreservedFiles backups fs2)
    else (some "git reset failed", fs2)
  else (some "git checkout failed", fs1)

lemma restorePreservedFiles_notmem
    {l : List (String × String)} {p : String}
    (h : ∀ d, (p, d) ∉ l) : ∀ fs : FS, restorePreservedFiles l fs p = fs p := by
  induction l with
  | nil => intro fs; rfl
  | cons e t ih =>
    intro fs
    have ht : ∀ d, (p, d) ∉ t := fun d hd => h d (List.mem_cons_of_mem e hd)
    show restorePreservedFiles t (writeFS fs e.1 e.2) p = fs p
    rw [ih ht]
    unfold writeFS
    rw [if_neg]
    intro hpe
    exact h e.2 (by rw [hpe]; exact List.mem_cons_self _ _)

lemma restorePreservedFiles_lookup
    {l : List (String × String)} {p c : String}
    (hex : (p, c) ∈ l) (hall : ∀ d, (p, d) ∈ l → d = c) :
    ∀ fs : FS, restorePreservedFiles l fs p = some c := by
  induction l with
  | nil => cases hex
  | cons e t ih =>
    intro fs
    show restorePreservedFiles t (writeFS fs e.1 e.2) p = some c
    by_cases hmem : ∃ d, (p, d) ∈ t
    · obtain ⟨d, hd⟩ := hmem
      have hdc : d = c := hall d (List.mem_cons_of_mem e hd)
      subst hdc
      exact ih hd (fun d' hd' => hall d' (List.mem_cons_of_mem e hd')) _
    · push_neg at hmem
      have hhead : e = (p, c) := by
        rcases List.mem_cons.mp hex with h1 | h1
        · exact h1.symm
        · exact absurd h1 (hmem c)
      rw [restorePreservedFiles_notmem (fun d hd => hmem d hd), hhead]
      unfold writeFS
      rw [if_pos rfl]

lemma backupPreservedFiles_mem {preserve : List String} {fs : FS}
    {p c : String} (hp : p ∈ preserve) (hc : fs p = some c) :
    (p, c) ∈ backupPreservedFiles preserve fs := by
  unfold backupPreservedFiles
  rw [List.mem_filterMap]
  exact ⟨p, hp, by rw [hc]; rfl⟩

lemma backupPreservedFiles_sound {preserve : List String} {fs : FS}
    {p d : String} (h : (p, d) ∈ backupPreservedFiles preserve fs) :
    fs p = some d := by
  unfold backupPreservedFiles at h
  rw [List.mem_filterMap] at h
  obtain ⟨q, _, hq⟩ := h
  cases hfs : fs q with
  | none => rw [hfs] at hq; cases hq
  | some e =>
    rw [hfs] at hq
    injection hq with hq
    cases hq
    exact hfs

lemma restore_backup_roundtrip {preserve : List String} {fs : FS}
    {p c : String} (hp : p ∈ preserve) (hc : fs p = some c) (fs' : FS) :
    restorePreservedFiles (backupPreservedFiles preserve fs) fs' p = some c := by
  refine restorePreservedFiles_lookup (backupPreservedFiles_mem hp hc) ?_ fs'
  intro d hd
  have := backupPreservedFiles_sound hd
  rw [hc] at this
  injection this with this
  exact this.symm

/-- Claim C1 counterexample: with `features.json` preserved and holding
"DATA", `mergeLocally` first reverts it to its committed version "HEAD"
via the clean step `git checkout -- features.json`; when the following
unguarded `git checkout <base>` then throws, the operation aborts through
the mutex-releasing `finally` WITHOUT running `restorePreservedFiles`, so
the file ends as "HEAD" ≠ "DATA" — refuting the claim that the preserved
bytes survive every abort. -/
theorem preserved_file_lost_on_uncaught_throw_cex :
    (mergeLocallyOp ["features.json"]
        (fun _ q => if q = "features.json" then some "HEAD" else none)
        ⟨id, false⟩ id ⟨id, true⟩ ⟨id, true⟩ id
        (fun q => if q = "features.json" then some "DATA" else none)).2
      "features.json" = some "HEAD" ∧
    (mergeLocallyOp ["features.json"]
        (fun _ q => if q = "features.json" then some "HEAD" else none)
        ⟨id, false⟩ id ⟨id, true⟩ ⟨id, true⟩ id
        (fun q => if q = "features.json" then some "DATA" else none)).1.isSome
      = true ∧
    some "HEAD" ≠ some "DATA" :=
  ⟨rfl, rfl, by decide⟩

/-- Claim C1 (amended): for every file `p` in the configured preserve
list that exists with contents `c`, the bytes survive each operation
provided the unguarded git commands that precede the restore complete:
`init` when prune, stash and checkout complete (for any caught-pull
effect); `mergeLocally` when the base checkout and `git rev-parse HEAD`
complete — then regardless of whether the merge succeeds or hits a
conflict, because the conflict path aborts, restores, and only then
throws; `revertMerge` when checkout and reset complete.  When one of the
unguarded commands throws after the clean or stash step has already
overwritten the preserved file, the bytes can be lost (see the
counterexample), so the claim's "also when the operation aborts" holds
only for the merge-conflict abort the code handles. -/
theorem preserved_files_survive (preserve : List String) (p c : String)
    (fs : FS) (hp : p ∈ preserve) (hc : fs p = some c) :
    (∀ (pruneStep stashStep checkoutStep : GitStep) (pullPhase : FS → FS),
      pruneStep.ok = true → stashStep.ok = true → checkoutStep.ok = true →
      (initOp preserve pruneStep stashStep checkoutStep pullPhase fs).2 p =
        some c) ∧
    (∀ (cleanPhase : FS → FS) (checkoutStep : GitStep) (pullPhase : FS → FS)
       (revParseStep mergeStep : GitStep) (abortPhase : FS → FS),
      checkoutStep.ok = true → revParseStep.ok = true →
      (mergeLocallyOp preserve cleanPhase checkoutStep pullPhase revParseStep
        mergeStep abortPhase fs).2 p = some c) ∧
    (∀ (checkoutStep resetStep : GitStep),
      checkoutStep.ok = true → resetStep.ok = true →
      (revertMergeOp preserve checkoutStep resetStep fs).2 p = some c) := by
  refine ⟨?_, ?_, ?_⟩
  · intro pruneStep stashStep checkoutStep pullPhase h1 h2 h3
    unfold initOp
    dsimp only
    rw [if_pos h1, if_pos h2, if_pos h3]
    exact restore_backup_roundtrip hp hc _
  · intro cleanPhase checkoutStep pullPhase revParseStep mergeStep abortPhase h1 h2
    unfold mergeLocallyOp
    dsimp only
    rw [if_pos h1, if_pos h2]
    by_cases hm : mergeStep.ok = true
    · rw [if_pos hm]
      exact restore_backup_roundtrip hp hc _
    · rw [if_neg hm]
      exact restore_backup_roundtrip hp hc _
  · intro checkoutStep resetStep h1 h2
    unfold revertMergeOp
    dsimp only
    rw [if_pos h1, if_pos h2]
    exact restore_backup_roundtrip hp hc _

/-- Witness for `preserved_files_survive` on the merge-conflict abort
path: the clean step reverts `features.json` to "HEAD", checkout and
rev-parse complete, the merge wipes every file and throws — yet the abort
path restores, so `features.json` is "DATA" again next to the thrown
error. -/
theorem preserved_files_survive_witness :
    (mergeLocallyOp ["features.json"]
        (fun _ q => if q = "features.json" then some "HEAD" else none)
        ⟨id, true⟩ id ⟨id, true⟩ ⟨fun _ _ => none, false⟩ id
        (fun q => if q = "features.json" then some "DATA" else none)).2
      "features.json" = some "DATA" :=
  ((preserved_files_survive ["features.json"] "features.json" "DATA"
    (fun q => if q = "features.json" then some "DATA" else none)
    (by decide) (by rfl)).2.1)
    (fun _ q => if q = "features.json" then some "HEAD" else none)
    ⟨id, true⟩ id ⟨id, true⟩ ⟨fun _ _ => none, false⟩ id rfl rfl

/-! ### The per-track loop tail (`Orchestrator.runTrack`, part_004)

The slice of one loop iteration from the end of `executeSession` to the
end of the loop body, with the I/O boundaries abstracted into inputs: the
agent result, whether the auto-commit/branch-status step threw, the ahead
count, and the outcome and feature-store effects of `verifyAndMerge`
(whose interior is taken as an opaque effect list).  The effect lists
record, in program order, the feature-store writes, session updates,
queue operations and waits the iteration performs.  The literal strings
abbreviate the interpolated source messages; the status/kind arguments
are the source's. -/

inductive TrackEffect
  | storeUpdate (featureId : Nat) (st : FeatureStatus) (reason : Option String)
      (kind : Option FailureCategory) (hasProgress : Bool)
  | sessionUpdate (st : SessionStatus)
  | emitSessionFinished
  | emitFeatureUpdated
  | emitCriticalFailure
  | breakTrackLoop
  | pacingSleep
  | enqueueResumeEff (featureId : Nat)
  | rateLimitWaitEff
  | incCompleted
  | incFailed
  | cleanupWorktreeEff
  | stopOrchestrator
deriving DecidableEq

structure IterationInput where
  featureId : Nat
  criticalPatterns : List CriticalPattern
  agentSuccess : Bool
  agentOutput : String
  agentError : Option String
  analysisOutput : Option String
  analysisError : Option String
  commitThrows : Bool
  aheadCount : Nat
  verifyPassed : Bool
  verifyReason : Option String
  verifyEffects : List TrackEffect
  durationMs : Nat
  prevCriticalCount : Nat
  updatedFeatureFound : Bool

/-- The failure analysis computed when the implementation did not
succeed: `analyzeFailure(analysisOutput ?? output, analysisError ?? error)`. -/
def iterationAnalysis (inp : IterationInput) : Option FailureAnalysis :=
  if inp.agentSuccess then none
  else some (analyzeFailure inp.criticalPatterns
    (inp.analysisOutput.getD inp.agentOutput)
    (inp.analysisError <|> inp.agentError))

/-- Step 8 of the loop: on a non-rate-limit failure, mark the feature
failed with the analyzed reason, kind and a progress summary; on a
rate-limit failure (and on success) no feature-store write happens
here. -/
def phase1Effects (inp : IterationInput) : List TrackEffect :=
  match iterationAnalysis inp with
  | none => []
  | some fa =>
    if fa.category ≠ FailureCategory.rate_limit then
      [.storeUpdate inp.featureId .failed (some fa.reason) (some fa.category) true]
    else []

/-- The implementation session's recorded final status:
`passed` on exit 0, else `error` when a runtime error message exists,
else `failed`. -/
def implSessionStatus (inp : IterationInput) : SessionStatus :=
  if inp.agentSuccess then .passed
  else if inp.agentError.isSome then .error else .failed

/-- The failure analysis after the merge+verify phase: a passed
verification leaves the implementation analysis in place; a failed one
replaces it with a non-critical `verification` analysis. -/
def finalAnalysis (inp : IterationInput) : Option FailureAnalysis :=
  if inp.verifyPassed then iterationAnalysis inp
  else some ⟨inp.verifyReason.getD "Verification failed", .verification, false, none⟩

/-- Steps 11-13 of the loop (after `verifyAndMerge`): critical-failure
tracking with the two-strike break, fast-failure pacing, the rate-limit
resume re-enqueue and delay, the track counters, worktree cleanup, and
the feature-updated event (suppressed while rate-limited). -/
def tailEffects (inp : IterationInput) : List TrackEffect :=
  let fa? := finalAnalysis inp
  let isRateLimit : Bool := match fa? with
    | some fa => fa.category == FailureCategory.rate_limit
    | none => false
  let isCritical : Bool := match fa? with
    | some fa => fa.isCritical
    | none => false
  let pacing : List TrackEffect :=
    if inp.durationMs < 10000 then [.pacingSleep] else []
  let rest : List TrackEffect :=
    (if isRateLimit then [.enqueueResumeEff inp.featureId, .rateLimitWaitEff] else []) ++
    (if inp.verifyPassed then [.incCompleted]
     else if isRateLimit then [] else [.incFailed]) ++
    [.cleanupWorktreeEff] ++
    (if inp.updatedFeatureFound && !isRateLimit then [.emitFeatureUpdated] else [])
  if !inp.verifyPassed && !isRateLimit then
    if isCritical then
      if inp.prevCriticalCount + 1 ≥ 2 then [.emitCriticalFailure, .breakTrackLoop]
      else pacing ++ rest
    else pacing ++ rest
  else rest

/-- One iteration of the per-track loop from the agent result onward:
failure analysis and conditional feature-store write, session update and
finished event, then the auto-commit/branch check (whose throw or
zero-commit outcome marks the feature failed with kind `implementation`
and stops the orchestrator, skipping the rest of the iteration), then
merge+verify and the tail. -/
def runTrackIteration (inp : IterationInput) : List TrackEffect :=
  phase1Effects inp ++
  [.sessionUpdate (implSessionStatus inp), .emitSessionFinished] ++
  (if inp.commitThrows then
    [.storeUpdate inp.featureId .failed (some "Failed to validate/commit branch")
      (some .implementation) false, .emitFeatureUpdated, .stopOrchestrator]
   else if inp.aheadCount = 0 then
    [.storeUpdate inp.featureId .failed (some "No commits found on branch")
      (some .implementation) false, .emitFeatureUpdated, .stopOrchestrator]
   else inp.verifyEffects ++ tailEffects inp)

/-- A rate-limited implementation attempt that left no commits on the
branch: the analysis output "rate limit" classifies as `rate_limit`, and
the branch is not ahead of base. -/
def rateLimitNoCommitInput : IterationInput :=
  { featureId := 7
    criticalPatterns := []
    agentSuccess := false
    agentOutput := ""
    agentError := some "Stopped by user"
    analysisOutput := some "rate limit"
    analysisError := none
    commitThrows := false
    aheadCount := 0
    verifyPassed := false
    verifyReason := none
    verifyEffects := []
    durationMs := 0
    prevCriticalCount := 0
    updatedFeatureFound := true }

/-- Claim C2 counterexample: on a rate-limit-classified failure whose
branch has no commits, the iteration DOES mutate the feature store (it
marks the feature failed with kind `implementation` and stops the
orchestrator) and never re-enqueues the feature on the resume queue nor
waits the rate-limit delay — refuting the claim that a rate-limit
classification always skips feature mutation, re-enqueues and waits. -/
theorem runTrack_rate_limit_cex :
    (iterationAnalysis rateLimitNoCommitInput).map FailureAnalysis.category =
      some FailureCategory.rate_limit ∧
    TrackEffect.storeUpdate 7 .failed (some "No commits found on branch")
        (some .implementation) false ∈ runTrackIteration rateLimitNoCommitInput ∧
    TrackEffect.enqueueResumeEff 7 ∉ runTrackIteration rateLimitNoCommitInput ∧
    TrackEffect.rateLimitWaitEff ∉ runTrackIteration rateLimitNoCommitInput := by
  decide

/-- Claim C2 (amended): whenever the failure analysis classifies the
implementation failure as `rate_limit`, the failure-analysis step writes
nothing to the feature store; if additionally the auto-commit step does
not throw, the branch has commits, and the merge+verify phase returns
passed (so the analysis is not replaced), the iteration ends by
re-enqueuing the feature id on the track's resume queue and waiting the
configured rate-limit delay (and suppresses the feature-updated event);
but when the branch has no commits, the iteration instead marks the
feature failed with kind `implementation` and stops the orchestrator,
with no re-enqueue and no wait. -/
theorem runTrack_rate_limit_spec (inp : IterationInput)
    (ha : (iterationAnalysis inp).map FailureAnalysis.category =
      some FailureCategory.rate_limit) :
    phase1Effects inp = [] ∧
    (inp.commitThrows = false → inp.aheadCount ≠ 0 → inp.verifyPassed = true →
      runTrackIteration inp =
        [.sessionUpdate (implSessionStatus inp), .emitSessionFinished] ++
        inp.verifyEffects ++
        [.enqueueResumeEff inp.featureId, .rateLimitWaitEff, .incCompleted,
         .cleanupWorktreeEff]) ∧
    (inp.commitThrows = false → inp.aheadCount = 0 →
      runTrackIteration inp =
        [.sessionUpdate (implSessionStatus inp), .emitSessionFinished,
         .storeUpdate inp.featureId .failed (some "No commits found on branch")
           (some .implementation) false,
         .emitFeatureUpdated, .stopOrchestrator]) := by
  obtain ⟨fa, hia, hcat⟩ : ∃ fa, iterationAnalysis inp = some fa ∧
      fa.category = FailureCategory.rate_limit := by
    cases hia : iterationAnalysis inp with
    | none => rw [hia] at ha; cases ha
    | some fa =>
      rw [hia] at ha
      injection ha with ha
      exact ⟨fa, rfl, ha⟩
  have hphase1 : phase1Effects inp = [] := by
    unfold phase1Effects
    rw [hia]
    show (if fa.category ≠ FailureCategory.rate_limit then
      [TrackEffect.storeUpdate inp.featureId .failed (some fa.reason)
        (some fa.category) true] else []) = []
    rw [if_neg]
    intro hne
    exact hne hcat
  refine ⟨hphase1, ?_, ?_⟩
  · intro hct hac hvp
    unfold runTrackIteration
    rw [hphase1, if_neg (by rw [hct]; exact Bool.false_ne_true),
      if_neg hac]
    have htail : tailEffects inp =
        [.enqueueResumeEff inp.featureId, .rateLimitWaitEff, .incCompleted,
         .cleanupWorktreeEff] := by
      unfold tailEffects finalAnalysis
      rw [if_pos hvp, hia]
      simp [hcat, hvp]
    rw [htail]
    simp
  · intro hct hac
    unfold runTrackIteration
    rw [hphase1, if_neg (by rw [hct]; exact Bool.false_ne_true), if_pos hac]
    rfl

/-- Witness for `runTrack_rate_limit_spec`: the same rate-limited input
but with one commit on the branch and a passed verification re-enqueues
feature 7 and waits. -/
theorem runTrack_rate_limit_spec_witness :
    runTrackIteration { rateLimitNoCommitInput with
        aheadCount := 1, verifyPassed := true } =
      [.sessionUpdate .error, .emitSessionFinished,
       .enqueueResumeEff 7, .rateLimitWaitEff, .incCompleted,
       .cleanupWorktreeEff] := by
  have h := (runTrack_rate_limit_spec
    { rateLimitNoCommitInput with aheadCount := 1, verifyPassed := true }
    (by decide)).2.1 rfl (by decide) rfl
  rw [h]
  rfl

end Orchestra
